import Mathlib

/-!
Verification development for combine_rss.py, a single-file RSS aggregator.
The script reads several feeds, builds one item per linked entry, sorts the
items by publication time descending, keeps the newest MAX_ITEMS, fetches the
archived page for each kept item with a bounded retry loop, and writes one
RSS 2.0 document whose content:encoded payload is a CDATA section.

The definitions below are a shallow embedding of that script.  Machine-level
library calls are modelled as follows: a feedparser struct_time value is
carried as its epoch second count (an Int), the network is an oracle mapping
an attempt index and a URL to either an error string or an already-parsed
page, and BeautifulSoup documents are a small HTML node tree.  Comments on
each definition name the source lines it embeds.
-/

namespace CombineRss

/-! ### Configuration constants (combine_rss.py lines 28-33) -/

/-- ARCHIVE_PREFIX constant, line 28 of combine_rss.py. -/
def archivePrefixVal : String := "https://archive.is/o/nuunc/"

/-- MAX_ITEMS constant, line 30. -/
def MAX_ITEMS : Nat := 20

/-- MAX_WORKERS constant, line 31. -/
def MAX_WORKERS : Nat := 6

/-- RETRY_COUNT constant, line 32: number of attempts of the fetch loop. -/
def RETRY_COUNT : Nat := 2

/-! ### Datetime model (lines 39-47)

A Python datetime is modelled as an absolute epoch-second count together with
an optional fixed utc offset in minutes; tz = none models a naive datetime,
tz = some 0 models an aware datetime in the UTC representation.  Comparison
of aware datetimes compares the absolute instant, which is the seconds field
here. -/

structure PyDatetime where
  seconds : Int
  tz : Option Int
deriving Repr, DecidableEq

/-- Models time.mktime on a struct_time that is itself carried as an epoch
second count: the conversion of the parsed time tuple to a number. -/
def mktimeModel (t : Int) : Int := t

/-- Models datetime.fromtimestamp(ts, tz=timezone.utc): an aware datetime. -/
def fromtimestampUtc (ts : Int) : PyDatetime := { seconds := ts, tz := some 0 }

/-- Models datetime.now(tz=timezone.utc) at wall-clock instant now. -/
def nowUtc (now : Int) : PyDatetime := { seconds := now, tz := some 0 }

/-- Models email.utils.format_datetime as a rendering of the instant and
offset; the claims never inspect the concrete text, only that pubDate is
derived from the entry datetime (lines 49-54). -/
def format_rfc2822 (dt : PyDatetime) : String :=
  "epoch " ++ toString dt.seconds ++
    (match dt.tz with
     | some off => " offset " ++ toString off
     | none => "")

/-! ### Feedparser entries (lines 116-133)

A parsed entry carries the attributes the script reads.  An attribute that is
absent, or present but None, is modelled as none; published_parsed and
updated_parsed carry the struct_time as an epoch second count. -/

structure FPEntry where
  title : Option String
  link : Option String
  summary : Option String
  description : Option String
  published_parsed : Option Int
  updated_parsed : Option Int
deriving Repr, DecidableEq

/-- parse_entry_datetime, lines 39-47: published time, else updated time,
else the current wall clock, each branch producing an aware UTC datetime. -/
def parse_entry_datetime (e : FPEntry) (now : Int) : PyDatetime :=
  match e.published_parsed with
  | some t => fromtimestampUtc (mktimeModel t)
  | none =>
    match e.updated_parsed with
    | some t => fromtimestampUtc (mktimeModel t)
    | none => nowUtc now

/-- Python `a or b` on strings: a when nonempty, else b. -/
def pyOrStr (a b : String) : String := if a = "" then b else a

/-! ### Aggregated items (lines 127-133) -/

/-- One element of the all_entries list: the dict built at lines 127-133,
with the full_html key (attached later, line 152) as an Option. -/
structure Item where
  title : String
  orig_link : String
  archive_link : String
  summary : String
  published_dt : PyDatetime
  full_html : Option String
deriving Repr, DecidableEq

/-- The inline archive-link construction at line 130:
ARCHIVE_PREFIX + link.  There is no other resolution path in the script. -/
def resolveArchiveLink (link : String) : String := archivePrefixVal ++ link

/-- The dict literal at lines 127-133 for one entry whose link is present
and nonempty. -/
def mkItem (now : Int) (e : FPEntry) (link : String) : Item :=
  { title := (e.title).getD "Untitled"
    orig_link := link
    archive_link := resolveArchiveLink link
    summary := pyOrStr ((e.summary).getD "") ((e.description).getD "")
    published_dt := parse_entry_datetime e now
    full_html := none }

/-- The inner loop at lines 122-133: entries whose link attribute is missing
or empty (Python falsy) are skipped, every other entry yields one item. -/
def collectFeed (now : Int) (entries : List FPEntry) : List Item :=
  entries.filterMap fun e =>
    match e.link with
    | some l => if l = "" then none else some (mkItem now e l)
    | none => none

/-- The outer loop at lines 115-133: a feed whose parse raised is skipped
(the except branch, lines 119-121), the items of the others are appended in
feed order. -/
def all_entries (now : Int) (feeds : List (Except String (List FPEntry))) :
    List Item :=
  feeds.foldl
    (fun acc f =>
      match f with
      | Except.ok es => acc ++ collectFeed now es
      | Except.error _ => acc)
    []

/-! ### Sorting and truncation (lines 135-137)

list.sort(key=..., reverse=True) is a stable descending sort on the key.  It
is embedded as an insertion sort that moves each element past exactly the
elements with a strictly smaller key, which is stable and descending. -/

/-- The sort key at line 136: the published datetime, compared as an
absolute instant. -/
def itemKey (it : Item) : Int := it.published_dt.seconds

/-- Insert x in front of the first element whose key is less than or equal
to the key of x; x stays behind every strictly greater element and in front
of equal ones, which preserves the original order of equal keys. -/
def insertDesc (x : Item) : List Item → List Item
  | [] => [x]
  | y :: ys => if itemKey x < itemKey y then y :: insertDesc x ys else x :: y :: ys

/-- The stable descending sort of line 136. -/
def sortDesc : List Item → List Item
  | [] => []
  | x :: xs => insertDesc x (sortDesc xs)

/-- selected, line 137: newest MAX_ITEMS items. -/
def selectedItems (now : Int) (feeds : List (Except String (List FPEntry))) :
    List Item :=
  (sortDesc (all_entries now feeds)).take MAX_ITEMS

/-! ### HTML document model (BeautifulSoup, lines 56-107)

A parsed page is a forest of nodes; an element node carries its tag name,
attribute list and children.  soup.find with a name or a predicate returns
the first matching element in document (preorder) order and never matches a
bare string.  A bs4 Tag is always truthy (a tag is non-None even if it has
no contents), and a NavigableString is falsy exactly when it is the empty
string. -/

inductive HNode where
  | elem (tag : String) (attrs : List (String × String)) (children : List HNode)
  | text (s : String)
deriving Repr

/-- Python truthiness of a find result: bs4 Tag.__bool__ returns True
unconditionally, so an element is always truthy; a NavigableString is
truthy when it is nonempty. -/
def tagTruthy : HNode → Bool
  | HNode.elem _ _ _ => true
  | HNode.text s => s ≠ ""

/-- tag.get(key): the attribute value when the attribute is present. -/
def attrGet (attrs : List (String × String)) (key : String) : Option String :=
  match attrs.find? (fun p => p.1 == key) with
  | some p => some p.2
  | none => none

/-- tag.has_attr(key). -/
def hasAttr : HNode → String → Bool
  | HNode.elem _ attrs _, key => (attrGet attrs key).isSome
  | HNode.text _, _ => false

/-- tag[key] with a default for the impossible missing case. -/
def attrGetD : HNode → String → String → String
  | HNode.elem _ attrs _, key, d => ((attrGet attrs key).getD d)
  | HNode.text _, _, d => d

/-- Attribute rendering for str(tag). -/
def renderAttrs (attrs : List (String × String)) : String :=
  attrs.foldl (fun acc p => acc ++ " " ++ p.1 ++ "=\"" ++ p.2 ++ "\"") ""

mutual
/-- str(tag): serialize one node. -/
def render : HNode → String
  | HNode.text s => s
  | HNode.elem t attrs cs =>
      "<" ++ t ++ renderAttrs attrs ++ ">" ++ renderList cs ++ "</" ++ t ++ ">"
/-- Serialize a list of sibling nodes. -/
def renderList : List HNode → String
  | [] => ""
  | n :: rest => render n ++ renderList rest
end

mutual
/-- get_text(strip=True) is nonempty: some descendant string holds a
non-whitespace character. -/
def hasText : HNode → Bool
  | HNode.text s => s.any (fun c => !c.isWhitespace)
  | HNode.elem _ _ cs => hasTextList cs
/-- hasText over sibling nodes. -/
def hasTextList : List HNode → Bool
  | [] => false
  | n :: rest => hasText n || hasTextList rest
end

mutual
/-- First element (never a bare string) satisfying p, preorder. -/
def findNode (p : HNode → Bool) : HNode → Option HNode
  | HNode.text _ => none
  | HNode.elem t attrs cs =>
      if p (HNode.elem t attrs cs) then some (HNode.elem t attrs cs)
      else findList p cs
/-- findNode over sibling nodes in order. -/
def findList (p : HNode → Bool) : List HNode → Option HNode
  | [] => none
  | n :: rest =>
      match findNode p n with
      | some r => some r
      | none => findList p rest
end

/-- A fetched page: the raw response text and the parsed node forest. -/
structure Doc where
  rawText : String
  nodes : List HNode
deriving Repr

/-- soup.find(p) over the whole parsed page. -/
def docFind (p : HNode → Bool) (d : Doc) : Option HNode := findList p d.nodes

/-- Element with a given tag name, for soup.find("article") and the like. -/
def isTagNamed (t : String) : HNode → Bool
  | HNode.elem tag _ _ => tag == t
  | HNode.text _ => false

/-- Substring occurrence over character lists. -/
def occursIn (pat : List Char) : List Char → Bool
  | [] => pat.isEmpty
  | c :: rest => pat.isPrefixOf (c :: rest) || occursIn pat rest

/-- Substring occurrence on strings, for the Python in operator. -/
def strOccurs (s pat : String) : Bool := occursIn pat.data s.data

/-- Models str.lower as a character-wise map. -/
def strToLowerModel (s : String) : String := String.mk (s.data.map Char.toLower)

/-- The lambda at line 97: a div whose id attribute is present, truthy and
contains "snapshot" case-insensitively. -/
def isSnapshotDiv : HNode → Bool
  | HNode.elem t attrs _ =>
      t == "div" &&
        (match attrGet attrs "id" with
         | some idv => decide (idv ≠ "") && strOccurs (strToLowerModel idv) "snapshot"
         | none => false)
  | HNode.text _ => false

/-- soup2.find("div", {"id": "content"}) at line 90: exact id match. -/
def isDivIdContentEq : HNode → Bool
  | HNode.elem t attrs _ => t == "div" && (attrGet attrs "id" == some "content")
  | HNode.text _ => false

/-! ### iframe src normalization (lines 79-85) -/

/-- First occurrence split: some (before, after) when pat occurs, scanning
left to right. -/
def splitOnFirst (pat : List Char) : List Char → Option (List Char × List Char)
  | [] => if pat.isEmpty then some ([], []) else none
  | c :: rest =>
      if pat.isPrefixOf (c :: rest) then some ([], (c :: rest).drop pat.length)
      else
        match splitOnFirst pat rest with
        | some pr => some (c :: pr.1, pr.2)
        | none => none

/-- Characters of a host name: everything up to the next slash. -/
def takeUntilSlash : List Char → List Char
  | [] => []
  | c :: rest => if c = '/' then [] else c :: takeUntilSlash rest

/-- The scheme://host part of a URL, for urljoin with a root-relative
path (line 85). -/
def schemeHostOf (url : String) : String :=
  match splitOnFirst [':', '/', '/'] url.data with
  | some pr => String.mk (pr.1 ++ [':', '/', '/'] ++ takeUntilSlash pr.2)
  | none => url

/-- Models str.startswith through the character list. -/
def strStartsWithChars (s pre : String) : Bool := pre.data.isPrefixOf s.data

/-- Lines 80-85: protocol-relative srcs get https:, root-relative srcs are
joined onto the archive URL host, anything else is used as is. -/
def normalizeIframeSrc (archive_url src : String) : String :=
  if strStartsWithChars src "//" then "https:" ++ src
  else if strStartsWithChars src "/" then schemeHostOf archive_url ++ src
  else src

/-! ### Content extraction for one successful response (lines 66-107) -/

/-- Keep a find result only when it is truthy, the combined effect of the
Python or chain and the following truthiness test at lines 90-92; a found
Tag is always truthy, so on find results this keeps every found tag. -/
def truthyOpt (o : Option HNode) : Option HNode :=
  match o with
  | some t => if tagTruthy t then some t else none
  | none => none

/-- a2 at line 90: the first found of article, div id content, body on the
iframe target page (found tags are always truthy, so the or chain and the
if a2 test take the first find that succeeded). -/
def iframeChainPick (d : Doc) : Option HNode :=
  match truthyOpt (docFind (isTagNamed "article") d) with
  | some t => some t
  | none =>
    match truthyOpt (docFind isDivIdContentEq d) with
    | some t => some t
    | none => truthyOpt (docFind (isTagNamed "body") d)

/-- Lines 101-107: the body fallback, then the raw response text. -/
def bodyOrRaw (d : Doc) : String :=
  match docFind (isTagNamed "body") d with
  | some b => if tagTruthy b then render b else d.rawText
  | none => d.rawText

/-- Lines 96-107: the snapshot-div heuristic, then body, then raw text. -/
def snapshotOrLater (d : Doc) : String :=
  match docFind isSnapshotDiv d with
  | some p => if tagTruthy p && hasText p then render p else bodyOrRaw d
  | none => bodyOrRaw d

/-- Lines 73-107: the iframe fetch-through step and everything after it.
get is the transport available to this attempt; a failed or unproductive
iframe fetch falls through to the later strategies (inner try, line 93). -/
def iframeStage (get : String → Except String Doc) (archive_url : String)
    (d : Doc) : String :=
  match docFind (isTagNamed "iframe") d with
  | some ifr =>
      if tagTruthy ifr && hasAttr ifr "src" then
        match get (normalizeIframeSrc archive_url (attrGetD ifr "src" "")) with
        | Except.ok d2 =>
          match iframeChainPick d2 with
          | some a2 => render a2
          | none => snapshotOrLater d
        | Except.error _ => snapshotOrLater d
      else snapshotOrLater d
  | none => snapshotOrLater d

/-- Lines 66-107: extraction from one successfully fetched page.  The order
is: article with text, iframe fetch-through, snapshot div with text, the
body when found, raw response text. -/
def attemptExtract (get : String → Except String Doc) (archive_url : String)
    (d : Doc) : String :=
  match docFind (isTagNamed "article") d with
  | some a => if tagTruthy a && hasText a then render a else iframeStage get archive_url d
  | none => iframeStage get archive_url d

/-! ### The retry loop of fetch_archive_full_html (lines 56-112) -/

/-- repr of the last exception in the placeholder; None when no attempt ran. -/
def pyReprErr : Option String → String
  | some e => e
  | none => "None"

/-- The failure placeholder returned at line 112. -/
def failurePlaceholderOpt (url : String) (lastErr : Option String) : String :=
  "<!-- Failed to fetch archive content (" ++ url ++ "): " ++
    pyReprErr lastErr ++ " -->Full text not available."

/-- Result of one call of fetch_archive_full_html together with the number
of time.sleep calls it made (line 110). -/
structure FetchOut where
  result : String
  sleeps : Nat
deriving Repr, DecidableEq

/-- The attempt loop, lines 62-112.  net j is the transport available to
attempt j; a transport error is the except branch (sleep, remember the
exception, retry), a response runs the extraction and returns. -/
def fetchGo (net : Nat → String → Except String Doc) (url : String) :
    Nat → Nat → Option String → FetchOut
  | _, 0, lastErr => { result := failurePlaceholderOpt url lastErr, sleeps := 0 }
  | j, a + 1, _ =>
    match net j url with
    | Except.error e =>
        let o := fetchGo net url (j + 1) a (some e)
        { result := o.result, sleeps := o.sleeps + 1 }
    | Except.ok d => { result := attemptExtract (net j) url d, sleeps := 0 }

/-- fetch_archive_full_html, lines 56-112. -/
def fetch_archive_full_html (net : Nat → String → Except String Doc)
    (url : String) : FetchOut :=
  fetchGo net url 0 RETRY_COUNT none

/-- The first attempt index whose transport call succeeds, with its page. -/
def firstOk (net : Nat → String → Except String Doc) (url : String) :
    Nat → Nat → Option (Nat × Doc)
  | _, 0 => none
  | j, a + 1 =>
    match net j url with
    | Except.ok d => some (j, d)
    | Except.error _ => firstOk net url (j + 1) a

/-! ### Parallel fetch and reattach (lines 140-152)

future_map keys every future by its originating item, so the result written
at line 152 is a function of the item alone; the completion order of
as_completed is an arbitrary sequence of item indices. -/

/-- The fetch result for item j of the selected list: the function the
executor runs at line 143 applied to that item. -/
def resOf (net : Nat → String → Except String Doc) (items : List Item)
    (j : Nat) : String :=
  match items[j]? with
  | some it => (fetch_archive_full_html net it.archive_link).result
  | none => ""

/-- item["full_html"] = full_html, line 152. -/
def withFull (it : Item) (h : String) : Item := { it with full_html := some h }

/-- Process the completion of future j: write its result into item j. -/
def attachOne (res : Nat → String) (items : List Item) (j : Nat) : List Item :=
  match items[j]? with
  | some it => items.set j (withFull it (res j))
  | none => items

/-- The as_completed loop at lines 146-152, consuming futures in the order
the scheduler completes them. -/
def attachAll (res : Nat → String) (order : List Nat) (items : List Item) :
    List Item :=
  order.foldl (fun acc j => attachOne res acc j) items

/-! ### Feed writer (lines 154-193) -/

/-- One output item element, lines 173-188, as structured data: the DOM
subtree before serialization. -/
structure RssItem where
  title : String
  link : String
  guid : String
  description : String
  pubDate : String
  contentEncoded : String
deriving Repr, DecidableEq

/-- Lines 173-188: the element built for one selected item.  link is the
archive link, guid is the original link, content:encoded carries full_html
with the line 186 default. -/
def toRssItem (it : Item) : RssItem :=
  { title := it.title
    link := it.archive_link
    guid := it.orig_link
    description := it.summary
    pubDate := format_rfc2822 it.published_dt
    contentEncoded := (it.full_html).getD "Full text not available." }

/-- The item sequence of the output document for a given run: selected
items, fetch results attached in completion order, then the writer loop in
list order (lines 140-188). -/
def outputItems (now : Int) (feeds : List (Except String (List FPEntry)))
    (net : Nat → String → Except String Doc) (order : List Nat) :
    List RssItem :=
  (attachAll (resOf net (selectedItems now feeds)) order
    (selectedItems now feeds)).map toRssItem

/-! ### XML serialization (minidom, lines 154-193)

minidom escapes character data, and its CDATA writer refuses data holding
the CDATA terminator: CDATASection.writexml raises ValueError when the data
contains "]]>", so toxml either returns the document text or raises. -/

/-- minidom text escaping: the four replacements of _write_data. -/
def escChar (c : Char) : String :=
  if c = '&' then "&amp;"
  else if c = '<' then "&lt;"
  else if c = '"' then "&quot;"
  else if c = '>' then "&gt;"
  else String.singleton c

/-- Escape a whole character-data run. -/
def xmlEscape (s : String) : String :=
  s.data.foldl (fun acc c => acc ++ escChar c) ""

/-- text_node, lines 164-167, serialized: an element holding one text node. -/
def textEl (name text : String) : String :=
  "<" ++ name ++ ">" ++ xmlEscape text ++ "</" ++ name ++ ">"

/-- The CDATA terminator. -/
def cdataEnd : List Char := [']', ']', '>']

/-- CDATASection.writexml: refuse data holding the terminator, otherwise
emit the literal bracketed data. -/
def serializeCData (data : String) : Except String String :=
  if occursIn cdataEnd data.data then
    Except.error "]]> not allowed in a CDATA section"
  else Except.ok ("<![CDATA[" ++ data ++ "]]>")

/-- The content:encoded element of lines 185-188. -/
def serializeContentEl (data : String) : Except String String :=
  match serializeCData data with
  | Except.ok cd => Except.ok ("<content:encoded>" ++ cd ++ "</content:encoded>")
  | Except.error e => Except.error e

/-- One serialized item element, lines 173-188. -/
def serializeRssItem (r : RssItem) : Except String String :=
  match serializeContentEl r.contentEncoded with
  | Except.ok ce =>
      Except.ok ("<item>" ++ textEl "title" r.title ++ textEl "link" r.link ++
        textEl "guid" r.guid ++ textEl "description" r.description ++
        textEl "pubDate" r.pubDate ++ ce ++ "</item>")
  | Except.error e => Except.error e

/-- Serialize the item elements in order, propagating the first failure. -/
def serializeItems : List RssItem → Except String String
  | [] => Except.ok ""
  | r :: rest =>
    match serializeRssItem r with
    | Except.ok s =>
      match serializeItems rest with
      | Except.ok t => Except.ok (s ++ t)
      | Except.error e => Except.error e
    | Except.error e => Except.error e

/-- doc.toxml for the whole document, lines 154-191: header, channel
metadata (lines 169-171) and the item elements; a ValueError from any CDATA
section aborts serialization and the file is never written. -/
def serializeRss (items : List RssItem) : Except String String :=
  match serializeItems items with
  | Except.ok body =>
      Except.ok ("<?xml version=\"1.0\" encoding=\"utf-8\"?>" ++
        "<rss version=\"2.0\" xmlns:content=\"http://purl.org/rss/1.0/modules/content/\">" ++
        "<channel>" ++
        textEl "title" "Combined Economist RSS (archive.is links, newest 20)" ++
        textEl "link" "https://github.com/" ++
        textEl "description"
          "Combined feed - links point to archive.is/o/nuunc/..., full text fetched from archive pages" ++
        body ++ "</channel></rss>")
  | Except.error e => Except.error e

/-! ### Read-back of the content:encoded element

Verification-side parser used to state that the CDATA embedding is
unambiguous: strip the fixed element opening, take the data up to the first
CDATA terminator, and require the element closing to follow immediately. -/

/-- Remove an expected leading character sequence. -/
def dropPrefixChars : List Char → List Char → Option (List Char)
  | [], l => some l
  | _ :: _, [] => none
  | p :: ps, c :: cs => if c = p then dropPrefixChars ps cs else none

/-- Parse back the serialized content:encoded element: the data a conforming
XML parser would see inside the CDATA section. -/
def readBackContentEl (s : String) : Option String :=
  match dropPrefixChars ("<content:encoded><![CDATA[").data s.data with
  | some rest =>
    match splitOnFirst cdataEnd rest with
    | some pr =>
        if pr.2 = ("</content:encoded>").data then some (String.mk pr.1) else none
    | none => none
  | none => none

/-! ### Spec-side definitions used for comparison

These three definitions follow the wording of the specification and of the
claims, not the script, and exist only to be compared with the definitions
above. -/

/-- Spec wording for the archive cache (spec sections 3 and 4.2): a
pre-populated cache is authoritative, a hit is reused, a miss falls back to
prefix concatenation. -/
def cacheAuthoritativeResolve (cache : List (String × String))
    (link : String) : String :=
  match cache.lookup link with
  | some hit => hit
  | none => archivePrefixVal ++ link

/-- Claim C7 wording for the extraction policy: article, then the
content-like container heuristic, then the whole body, then raw text, with
no other strategy. -/
def extractPolicyClaim (d : Doc) : String :=
  match docFind (isTagNamed "article") d with
  | some a => render a
  | none =>
    match docFind isSnapshotDiv d with
    | some p => render p
    | none =>
      match docFind (isTagNamed "body") d with
      | some b => render b
      | none => d.rawText

/-- Strategy list form of the amended extraction policy (spec section 9
design note: an ordered list of named strategies tried in sequence). -/
def stratArticle (d : Doc) : Option String :=
  match docFind (isTagNamed "article") d with
  | some a => if tagTruthy a && hasText a then some (render a) else none
  | none => none

/-- Iframe fetch-through strategy: when an iframe with a src attribute is
found (a found iframe is always truthy, children or not), fetch the
normalized src and pick the first found of article, div id content, body on
the target page. -/
def stratIframe (get : String → Except String Doc) (archive_url : String)
    (d : Doc) : Option String :=
  match docFind (isTagNamed "iframe") d with
  | some ifr =>
      if tagTruthy ifr && hasAttr ifr "src" then
        match get (normalizeIframeSrc archive_url (attrGetD ifr "src" "")) with
        | Except.ok d2 => (iframeChainPick d2).map render
        | Except.error _ => none
      else none
  | none => none

/-- Snapshot-div heuristic strategy. -/
def stratSnapshot (d : Doc) : Option String :=
  match docFind isSnapshotDiv d with
  | some p => if tagTruthy p && hasText p then some (render p) else none
  | none => none

/-- Whole-body strategy: any found body is returned, children or not. -/
def stratBody (d : Doc) : Option String :=
  match docFind (isTagNamed "body") d with
  | some b => if tagTruthy b then some (render b) else none
  | none => none

/-- Try an ordered list of strategies, returning the first match. -/
def tryStrategies : List (Doc → Option String) → Doc → Option String
  | [], _ => none
  | s :: rest, d =>
    match s d with
    | some r => some r
    | none => tryStrategies rest d

/-- The amended extraction policy: the ordered strategy list of the script,
with the raw response text as final fallback. -/
def extractPolicyAmended (get : String → Except String Doc)
    (archive_url : String) (d : Doc) : String :=
  (tryStrategies
    [stratArticle, stratIframe get archive_url, stratSnapshot, stratBody]
    d).getD d.rawText

/-! ### Auxiliary definitions used by the statements -/

/-- The multiset of links the feed reader accepts from one feed, in order. -/
def feedLinks (es : List FPEntry) : List String :=
  es.filterMap fun e =>
    match e.link with
    | some l => if l = "" then none else some l
    | none => none

/-- The accepted links of all feeds in processing order, duplicates kept. -/
def linkedLinks (feeds : List (Except String (List FPEntry))) : List String :=
  feeds.foldl
    (fun acc f =>
      match f with
      | Except.ok es => acc ++ feedLinks es
      | Except.error _ => acc)
    []

/-- The same feeds with every entry lacking a link attribute removed. -/
def stripNoLink (feeds : List (Except String (List FPEntry))) :
    List (Except String (List FPEntry)) :=
  feeds.map fun f => f.map fun es => es.filter fun e => e.link.isSome

/-! ### Concrete fixtures for counterexamples and witnesses -/

/-- An entry with a link, a summary and a published time. -/
def entryA : FPEntry :=
  { title := some "A", link := some "L", summary := some "sA",
    description := none, published_parsed := some 5, updated_parsed := none }

/-- A second entry with the same link and an earlier published time. -/
def entryB : FPEntry :=
  { title := some "B", link := some "L", summary := none,
    description := some "dB", published_parsed := some 3, updated_parsed := none }

/-- An entry with no link attribute. -/
def entryNoLink : FPEntry :=
  { title := some "N", link := none, summary := none,
    description := none, published_parsed := some 9, updated_parsed := none }

/-- An entry carrying only an updated time. -/
def entryUpd : FPEntry :=
  { title := some "U", link := some "LU", summary := none,
    description := none, published_parsed := none, updated_parsed := some 11 }

/-- One feed holding two entries that share a link plus a linkless entry. -/
def feedsC1 : List (Except String (List FPEntry)) :=
  [Except.ok [entryA, entryB, entryNoLink]]

/-- A transport on which every request fails. -/
def netFail : Nat → String → Except String Doc :=
  fun _ _ => Except.error "connection error"

/-- The item built from entryA. -/
def itemA : Item := mkItem 0 entryA "L"

/-- The article on the iframe target page of the C7 fixture. -/
def articleIf : HNode := HNode.elem "article" [] [HNode.text "A"]

/-- The iframe target page. -/
def docIf : Doc := { rawText := "rawIf", nodes := [articleIf] }

/-- A childless iframe with a protocol-relative src, the typical snapshot
embed. -/
def iframeNode : HNode :=
  HNode.elem "iframe" [("src", "//if.example")] []

/-- The body of the C7 fixture page. -/
def bodyNode : HNode := HNode.elem "body" [] [HNode.text "B"]

/-- A page with no article, an iframe and a body. -/
def doc7 : Doc :=
  { rawText := "raw7", nodes := [HNode.elem "html" [] [iframeNode, bodyNode]] }

/-- A transport serving the C7 fixture page and its iframe target. -/
def net7 : Nat → String → Except String Doc :=
  fun _ u =>
    if u = "u7" then Except.ok doc7
    else if u = "https://if.example" then Except.ok docIf
    else Except.error "nope"

/-- An output item whose content holds the CDATA terminator. -/
def rssItemBad : RssItem :=
  { title := "t", link := "l", guid := "g", description := "d",
    pubDate := "p", contentEncoded := "x]]>y" }

/-! ## Lemmas about the stable descending sort -/

theorem length_insertDesc (x : Item) (l : List Item) :
    (insertDesc x l).length = l.length + 1 := by
  induction l with
  | nil => rfl
  | cons y ys ih =>
    simp only [insertDesc]
    split
    · simp [ih]
    · simp

theorem length_sortDesc (l : List Item) : (sortDesc l).length = l.length := by
  induction l with
  | nil => rfl
  | cons x xs ih =>
    simp only [sortDesc]
    rw [length_insertDesc, ih]
    rfl

theorem mem_insertDesc {x z : Item} {l : List Item} :
    z ∈ insertDesc x l ↔ z = x ∨ z ∈ l := by
  induction l with
  | nil => simp [insertDesc]
  | cons y ys ih =>
    simp only [insertDesc]
    split
    · simp only [List.mem_cons, ih]
      tauto
    · simp only [List.mem_cons]

theorem mem_sortDesc {z : Item} {l : List Item} : z ∈ sortDesc l ↔ z ∈ l := by
  induction l with
  | nil => simp [sortDesc]
  | cons x xs ih =>
    simp only [sortDesc, mem_insertDesc, ih, List.mem_cons]

theorem pairwise_insertDesc {x : Item} {l : List Item}
    (h : l.Pairwise (fun a b => itemKey b ≤ itemKey a)) :
    (insertDesc x l).Pairwise (fun a b => itemKey b ≤ itemKey a) := by
  induction l with
  | nil => simp [insertDesc]
  | cons y ys ih =>
    rcases List.pairwise_cons.mp h with ⟨hy, hys⟩
    simp only [insertDesc]
    split
    · rename_i hlt
      refine List.pairwise_cons.mpr ⟨?_, ih hys⟩
      intro z hz
      rcases mem_insertDesc.mp hz with rfl | hz2
      · exact le_of_lt hlt
      · exact hy z hz2
    · rename_i hge
      refine List.pairwise_cons.mpr ⟨?_, h⟩
      intro z hz
      rcases List.mem_cons.mp hz with rfl | hz2
      · exact le_of_not_lt hge
      · exact le_trans (hy z hz2) (le_of_not_lt hge)

theorem sortDesc_sorted (l : List Item) :
    (sortDesc l).Pairwise (fun a b => itemKey b ≤ itemKey a) := by
  induction l with
  | nil => simp [sortDesc]
  | cons x xs ih =>
    simp only [sortDesc]
    exact pairwise_insertDesc ih

theorem filter_insertDesc (k : Int) (x : Item) (l : List Item) :
    (insertDesc x l).filter (fun it => itemKey it == k) =
      (x :: l).filter (fun it => itemKey it == k) := by
  induction l with
  | nil => rfl
  | cons y ys ih =>
    simp only [insertDesc]
    split
    · rename_i hlt
      by_cases hx : itemKey x = k
      · have hy : ¬ itemKey y = k := by omega
        simp [List.filter_cons, hx, hy, ih]
      · by_cases hy : itemKey y = k
        · simp [List.filter_cons, hx, hy, ih]
        · simp [List.filter_cons, hx, hy, ih]
    · rfl

theorem filter_sortDesc (k : Int) (l : List Item) :
    (sortDesc l).filter (fun it => itemKey it == k) =
      l.filter (fun it => itemKey it == k) := by
  induction l with
  | nil => rfl
  | cons x xs ih =>
    simp only [sortDesc]
    rw [filter_insertDesc]
    by_cases hx : itemKey x = k
    · simp [List.filter_cons, hx, ih]
    · simp [List.filter_cons, hx, ih]

/-! ## Lemmas about the reattach stage -/

theorem withFull_withFull (it : Item) (a b : String) :
    withFull (withFull it a) b = withFull it b := rfl

theorem attachAll_cons (res : Nat → String) (j : Nat) (rest : List Nat)
    (items : List Item) :
    attachAll res (j :: rest) items = attachAll res rest (attachOne res items j) :=
  rfl

theorem length_attachOne (res : Nat → String) (items : List Item) (j : Nat) :
    (attachOne res items j).length = items.length := by
  unfold attachOne
  cases h : items[j]? <;> simp

theorem length_attachAll (res : Nat → String) (order : List Nat) :
    ∀ items : List Item, (attachAll res order items).length = items.length := by
  induction order with
  | nil => intro items; rfl
  | cons j rest ih =>
    intro items
    rw [attachAll_cons, ih, length_attachOne]

theorem getElem?_attachOne (res : Nat → String) (items : List Item) (j i : Nat) :
    (attachOne res items j)[i]? =
      if i = j then (items[i]?).map (fun it => withFull it (res i)) else items[i]? := by
  unfold attachOne
  cases h : items[j]? with
  | none =>
    by_cases hij : i = j
    · subst hij; simp [h]
    · simp [hij]
  | some it =>
    have hlt : j < items.length := by
      by_contra hge
      rw [List.getElem?_eq_none (Nat.le_of_not_lt hge)] at h
      cases h
    by_cases hij : i = j
    · subst hij
      simp [List.getElem?_set, hlt, h]
    · have : ¬ j = i := fun hh => hij hh.symm
      simp [List.getElem?_set, this, hij]

theorem getElem?_attachAll (res : Nat → String) (order : List Nat) :
    ∀ (items : List Item) (i : Nat),
      (attachAll res order items)[i]? =
        if i ∈ order then (items[i]?).map (fun it => withFull it (res i))
        else items[i]? := by
  induction order with
  | nil => intro items i; simp [attachAll]
  | cons j rest ih =>
    intro items i
    rw [attachAll_cons, ih, getElem?_attachOne]
    by_cases hij : i = j
    · subst hij
      by_cases hr : i ∈ rest
      · simp [hr, List.mem_cons, Option.map_map, Function.comp_def, withFull_withFull]
      · simp [hr, List.mem_cons]
    · by_cases hr : i ∈ rest
      · simp [hr, hij, List.mem_cons]
      · simp [hr, hij, List.mem_cons]

theorem mem_attachAll {it : Item} {res : Nat → String} {order : List Nat}
    {items : List Item} (h : it ∈ attachAll res order items) :
    ∃ it0, it0 ∈ items ∧ (it = it0 ∨ ∃ i, it = withFull it0 (res i)) := by
  rcases List.mem_iff_getElem?.mp h with ⟨i, hi⟩
  rw [getElem?_attachAll] at hi
  by_cases hio : i ∈ order
  · rw [if_pos hio] at hi
    cases h0 : items[i]? with
    | none => rw [h0] at hi; cases hi
    | some it0 =>
      rw [h0] at hi
      simp at hi
      exact ⟨it0, List.getElem?_mem h0, Or.inr ⟨i, hi.symm⟩⟩
  · rw [if_neg hio] at hi
    exact ⟨it, List.getElem?_mem hi, Or.inl rfl⟩

/-! ## Lemmas about feed collection -/

theorem mem_collectFeed {now : Int} {es : List FPEntry} {it : Item}
    (h : it ∈ collectFeed now es) :
    ∃ e l, e.link = some l ∧ l ≠ "" ∧ it = mkItem now e l := by
  rcases List.mem_filterMap.mp h with ⟨e, _, he⟩
  cases hl : e.link with
  | none => rw [hl] at he; cases he
  | some l =>
    rw [hl] at he
    by_cases hemp : l = ""
    · simp [hemp] at he
    · simp only [if_neg hemp, Option.some.injEq] at he
      exact ⟨e, l, hl, hemp, he.symm⟩

theorem mem_feeds_foldl (now : Int) (it : Item) :
    ∀ (feeds : List (Except String (List FPEntry))) (acc : List Item),
      it ∈ feeds.foldl
        (fun acc f =>
          match f with
          | Except.ok es => acc ++ collectFeed now es
          | Except.error _ => acc) acc →
      it ∈ acc ∨ ∃ es, it ∈ collectFeed now es := by
  intro feeds
  induction feeds with
  | nil => intro acc h; exact Or.inl h
  | cons f rest ih =>
    intro acc h
    simp only [List.foldl_cons] at h
    rcases ih _ h with h2 | h2
    · cases f with
      | ok es =>
        rcases List.mem_append.mp h2 with h3 | h3
        · exact Or.inl h3
        · exact Or.inr ⟨es, h3⟩
      | error e => exact Or.inl h2
    · exact h2.elim fun es h3 => Or.inr ⟨es, h3⟩

theorem mem_all_entries {now : Int} {it : Item}
    {feeds : List (Except String (List FPEntry))}
    (h : it ∈ all_entries now feeds) :
    ∃ e l, e.link = some l ∧ l ≠ "" ∧ it = mkItem now e l := by
  rcases mem_feeds_foldl now it feeds [] h with h2 | ⟨es, h2⟩
  · cases h2
  · exact mem_collectFeed h2

theorem collectFeed_map_origLink (now : Int) (es : List FPEntry) :
    (collectFeed now es).map (fun it => it.orig_link) = feedLinks es := by
  unfold collectFeed feedLinks
  rw [List.map_filterMap]
  apply List.filterMap_congr
  intro e _
  cases e.link with
  | none => rfl
  | some l =>
    by_cases hemp : l = ""
    · simp [hemp]
    · simp [hemp, mkItem]

theorem map_origLink_foldl (now : Int) :
    ∀ (fs : List (Except String (List FPEntry))) (acc : List Item),
      (fs.foldl
        (fun acc f =>
          match f with
          | Except.ok es => acc ++ collectFeed now es
          | Except.error _ => acc) acc).map (fun it => it.orig_link) =
      fs.foldl
        (fun accS f =>
          match f with
          | Except.ok es => accS ++ feedLinks es
          | Except.error _ => accS) (acc.map (fun it => it.orig_link)) := by
  intro fs
  induction fs with
  | nil => intro acc; rfl
  | cons f rest ih =>
    intro acc
    simp only [List.foldl_cons]
    rw [ih]
    congr 1
    cases f with
    | ok es => simp [List.map_append, collectFeed_map_origLink]
    | error e => rfl

theorem collectFeed_filter_isSome (now : Int) (es : List FPEntry) :
    collectFeed now (es.filter fun e => e.link.isSome) = collectFeed now es := by
  induction es with
  | nil => rfl
  | cons e rest ih =>
    simp only [collectFeed] at ih ⊢
    cases hl : e.link with
    | none => simp [List.filter_cons, hl, List.filterMap_cons, ih]
    | some l => simp [List.filter_cons, hl, List.filterMap_cons, ih]

theorem all_entries_strip (now : Int)
    (feeds : List (Except String (List FPEntry))) :
    all_entries now (stripNoLink feeds) = all_entries now feeds := by
  unfold all_entries stripNoLink
  suffices h : ∀ (fs : List (Except String (List FPEntry))) (acc : List Item),
      ((fs.map fun f => f.map fun es => es.filter fun e => e.link.isSome).foldl
        (fun acc f =>
          match f with
          | Except.ok es => acc ++ collectFeed now es
          | Except.error _ => acc) acc) =
      fs.foldl
        (fun acc f =>
          match f with
          | Except.ok es => acc ++ collectFeed now es
          | Except.error _ => acc) acc by
    exact h feeds []
  intro fs
  induction fs with
  | nil => intro acc; rfl
  | cons f rest ih =>
    intro acc
    simp only [List.map_cons, List.foldl_cons]
    have hstep :
        (match f.map fun es => es.filter fun e => e.link.isSome with
          | Except.ok es => acc ++ collectFeed now es
          | Except.error _ => acc) =
        (match f with
          | Except.ok es => acc ++ collectFeed now es
          | Except.error _ => acc) := by
      cases f with
      | ok es => simp [Except.map, collectFeed_filter_isSome]
      | error e => rfl
    rw [hstep, ih]

/-! ## Lemmas about the fetch retry loop -/

theorem fetchGo_sleeps_le (net : Nat → String → Except String Doc)
    (url : String) :
    ∀ (a j : Nat) (le0 : Option String), (fetchGo net url j a le0).sleeps ≤ a := by
  intro a
  induction a with
  | zero => intro j le0; exact Nat.le_refl 0
  | succ a ih =>
    intro j le0
    cases hn : net j url with
    | error e =>
      simp only [fetchGo, hn]
      exact Nat.succ_le_succ (ih (j + 1) (some e))
    | ok d => simp [fetchGo, hn]

theorem fetchGo_result_ok (net : Nat → String → Except String Doc)
    (url : String) :
    ∀ (a j : Nat) (le0 : Option String) (jj : Nat) (d : Doc),
      firstOk net url j a = some (jj, d) →
      (fetchGo net url j a le0).result = attemptExtract (net jj) url d := by
  intro a
  induction a with
  | zero => intro j le0 jj d h; simp [firstOk] at h
  | succ a ih =>
    intro j le0 jj d h
    cases hn : net j url with
    | ok d0 =>
      simp only [firstOk, hn, Option.some.injEq, Prod.mk.injEq] at h
      obtain ⟨rfl, rfl⟩ := h
      simp [fetchGo, hn]
    | error e =>
      simp only [firstOk, hn] at h
      simp only [fetchGo, hn]
      exact ih (j + 1) (some e) jj d h

theorem fetchGo_result_none (net : Nat → String → Except String Doc)
    (url : String) :
    ∀ (a j : Nat) (le0 : Option String),
      firstOk net url j a = none →
      ∃ e0 : Option String,
        (fetchGo net url j a le0).result = failurePlaceholderOpt url e0 := by
  intro a
  induction a with
  | zero => intro j le0 _; exact ⟨le0, rfl⟩
  | succ a ih =>
    intro j le0 h
    cases hn : net j url with
    | ok d0 => simp [firstOk, hn] at h
    | error e =>
      simp only [firstOk, hn] at h
      simp only [fetchGo, hn]
      exact ih (j + 1) (some e) h

theorem failurePlaceholder_marked (url : String) (e0 : Option String) :
    ∃ rest, failurePlaceholderOpt url e0 =
      "<!-- Failed to fetch archive content (" ++ rest := by
  refine ⟨url ++ "): " ++ pyReprErr e0 ++ " -->Full text not available.", ?_⟩
  simp [failurePlaceholderOpt, String.append_assoc]

/-! ## Lemmas about the CDATA embedding -/

theorem dropPrefixChars_append (p : List Char) :
    ∀ l : List Char, dropPrefixChars p (p ++ l) = some l := by
  induction p with
  | nil => intro l; rfl
  | cons c cs ih => intro l; simp [dropPrefixChars, ih]

theorem strMk_data (s : String) : String.mk s.data = s := by
  cases s
  rfl

theorem cdataEnd_not_prefix_pad (c : Char) (ds tail : List Char)
    (h1 : cdataEnd.isPrefixOf (c :: ds) = false) :
    cdataEnd.isPrefixOf (c :: (ds ++ (cdataEnd ++ tail))) = false := by
  match ds with
  | [] =>
    by_cases hc : c = ']'
    · subst hc
      simp [cdataEnd, List.isPrefixOf]
    · have hcb : ((']' : Char) == c) = false :=
        beq_eq_false_iff_ne.mpr (Ne.symm hc)
      simp [cdataEnd, List.isPrefixOf, hcb]
  | [d] =>
    by_cases hc : c = ']'
    · subst hc
      by_cases hd : d = ']'
      · subst hd
        simp [cdataEnd, List.isPrefixOf]
      · have hdb : ((']' : Char) == d) = false :=
          beq_eq_false_iff_ne.mpr (Ne.symm hd)
        simp [cdataEnd, List.isPrefixOf, hdb]
    · have hcb : ((']' : Char) == c) = false :=
        beq_eq_false_iff_ne.mpr (Ne.symm hc)
      simp [cdataEnd, List.isPrefixOf, hcb]
  | d1 :: d2 :: ds2 =>
    have heq :
        cdataEnd.isPrefixOf (c :: ((d1 :: d2 :: ds2) ++ (cdataEnd ++ tail))) =
          cdataEnd.isPrefixOf (c :: d1 :: d2 :: ds2) := by
      simp [cdataEnd, List.isPrefixOf]
    rw [heq]
    exact h1

theorem cdata_split (tail : List Char) :
    ∀ l : List Char, occursIn cdataEnd l = false →
      splitOnFirst cdataEnd (l ++ (cdataEnd ++ tail)) = some (l, tail) := by
  intro l
  induction l with
  | nil =>
    intro _
    show splitOnFirst cdataEnd (cdataEnd ++ tail) = some ([], tail)
    simp [splitOnFirst, cdataEnd, List.isPrefixOf]
  | cons c ds ih =>
    intro h
    have h2 : (cdataEnd.isPrefixOf (c :: ds) || occursIn cdataEnd ds) = false := by
      simpa [occursIn] using h
    rw [Bool.or_eq_false_iff] at h2
    have hnp := cdataEnd_not_prefix_pad c ds tail h2.1
    show splitOnFirst cdataEnd (c :: (ds ++ (cdataEnd ++ tail))) = some (c :: ds, tail)
    rw [splitOnFirst, if_neg (by simp [hnp]), ih h2.2]

/-! ## Lemmas about the extraction strategy ladder -/

theorem bodyOrRaw_eq (d : Doc) :
    bodyOrRaw d = (tryStrategies [stratBody] d).getD d.rawText := by
  unfold bodyOrRaw tryStrategies stratBody
  cases h : docFind (isTagNamed "body") d with
  | none => rfl
  | some b =>
    by_cases hb : tagTruthy b = true
    · simp [hb]
    · simp [hb, tryStrategies]

theorem snapshotOrLater_eq (d : Doc) :
    snapshotOrLater d = (tryStrategies [stratSnapshot, stratBody] d).getD d.rawText := by
  have hb := bodyOrRaw_eq d
  unfold snapshotOrLater
  cases h : docFind isSnapshotDiv d with
  | none =>
    rw [tryStrategies, show stratSnapshot d = none from by simp [stratSnapshot, h]]
    exact hb
  | some p =>
    by_cases hc : (tagTruthy p && hasText p) = true
    · rw [tryStrategies,
        show stratSnapshot d = some (render p) from by simp [stratSnapshot, h, hc]]
      simp [hc]
    · rw [tryStrategies,
        show stratSnapshot d = none from by simp [stratSnapshot, h, hc]]
      simpa [hc] using hb

theorem iframeStage_eq (get : String → Except String Doc) (url : String)
    (d : Doc) :
    iframeStage get url d =
      (tryStrategies [stratIframe get url, stratSnapshot, stratBody] d).getD
        d.rawText := by
  have hs := snapshotOrLater_eq d
  unfold iframeStage
  cases h : docFind (isTagNamed "iframe") d with
  | none =>
    rw [tryStrategies, show stratIframe get url d = none from by simp [stratIframe, h]]
    exact hs
  | some ifr =>
    by_cases hc : (tagTruthy ifr && hasAttr ifr "src") = true
    · cases hg : get (normalizeIframeSrc url (attrGetD ifr "src" "")) with
      | ok d2 =>
        cases hp : iframeChainPick d2 with
        | some a2 =>
          rw [tryStrategies,
            show stratIframe get url d = some (render a2) from by
              simp [stratIframe, h, hc, hg, hp]]
          simp [hc, hg, hp]
        | none =>
          rw [tryStrategies,
            show stratIframe get url d = none from by
              simp [stratIframe, h, hc, hg, hp]]
          simpa [hc, hg, hp] using hs
      | error e =>
        rw [tryStrategies,
          show stratIframe get url d = none from by simp [stratIframe, h, hc, hg]]
        simpa [hc, hg] using hs
    · rw [tryStrategies,
        show stratIframe get url d = none from by simp [stratIframe, h, hc]]
      simpa [hc] using hs

/-- The archive prefix is nonempty, so a prefixed link never equals the raw
link. -/
theorem prefixed_ne (l : String) : archivePrefixVal ++ l ≠ l := by
  intro h
  have hlen := congrArg String.length h
  rw [String.length_append] at hlen
  have h27 : archivePrefixVal.length = 27 := by decide
  omega

/-! ## Claim theorems -/

/-- C1 counterexample: the script performs no deduplication.  Two entries of
the same feed share the original link L, and the final output holds two
items whose guid (the original link) is L, refuting the claim that no two
output items share an original_link. -/
theorem C1_counterexample_duplicate_links_survive :
    (outputItems 0 feedsC1 netFail [0, 1]).map (fun r => r.guid) = ["L", "L"] ∧
    ¬ (outputItems 0 feedsC1 netFail [0, 1]).Pairwise
        (fun a b => a.guid ≠ b.guid) := by
  have hm : (outputItems 0 feedsC1 netFail [0, 1]).map (fun r => r.guid) =
      ["L", "L"] := by rfl
  refine ⟨hm, ?_⟩
  intro hp
  have hp2 := List.Pairwise.map (fun r : RssItem => r.guid)
    (fun (a b : RssItem) (hab : a.guid ≠ b.guid) => hab) hp
  rw [hm] at hp2
  rcases List.pairwise_cons.mp hp2 with ⟨hhead, _⟩
  exact hhead "L" (List.mem_cons_self _ _) rfl

/-- C1 amended: the aggregation stage keeps every linked entry, duplicates
included; the original links of all_entries are exactly the accepted links
of the feeds in processing order, with no deduplication. -/
theorem C1_amended_no_dedup (now : Int)
    (feeds : List (Except String (List FPEntry))) :
    (all_entries now feeds).map (fun it => it.orig_link) = linkedLinks feeds := by
  unfold all_entries linkedLinks
  simpa using map_origLink_foldl now feeds []

/-- C2 counterexample: the script resolves an archive link by unconditional
prefix concatenation; a pre-populated cache that maps L to a cached archive
link is not consulted, refuting the claim that a cached original_link is
reused. -/
theorem C2_counterexample_cache_not_consulted :
    resolveArchiveLink "L" ≠
      cacheAuthoritativeResolve [("L", "https://archive.example/snap")] "L" := by
  decide

/-- C2 amended: the program maintains no archive cache at all; every
aggregated item carries archive_link = ARCHIVE_PREFIX + original_link,
computed inline with no lookup of any kind. -/
theorem C2_amended_prefix_only (now : Int)
    (feeds : List (Except String (List FPEntry))) (it : Item)
    (h : it ∈ all_entries now feeds) :
    it.archive_link = resolveArchiveLink it.orig_link := by
  rcases mem_all_entries h with ⟨e, l, _, _, rfl⟩
  rfl

/-- Witness for the amended C2 at a concrete run. -/
theorem C2_amended_witness :
    itemA ∈ all_entries 0 feedsC1 ∧
    itemA.archive_link = resolveArchiveLink itemA.orig_link := by
  have hm : itemA ∈ all_entries 0 feedsC1 := by
    rw [show all_entries 0 feedsC1 = [itemA, mkItem 0 entryB "L"] from rfl]
    exact List.mem_cons_self _ _
  exact ⟨hm, C2_amended_prefix_only 0 feedsC1 itemA hm⟩

/-- C3: the output has at most MAX_ITEMS items, one per selected item in
order; the selected items are non-increasing in the published timestamp;
and the sort is stable: for every key value, the items holding it appear in
the sorted list in their original relative order. -/
theorem C3_sorted_truncated_stable (now : Int)
    (feeds : List (Except String (List FPEntry)))
    (net : Nat → String → Except String Doc) (order : List Nat) :
    (outputItems now feeds net order).length ≤ MAX_ITEMS ∧
    (outputItems now feeds net order).length = (selectedItems now feeds).length ∧
    (selectedItems now feeds).Pairwise (fun a b => itemKey b ≤ itemKey a) ∧
    ∀ k : Int,
      (sortDesc (all_entries now feeds)).filter (fun it => itemKey it == k) =
        (all_entries now feeds).filter (fun it => itemKey it == k) := by
  have hlen : (outputItems now feeds net order).length =
      (selectedItems now feeds).length := by
    unfold outputItems
    rw [List.length_map, length_attachAll]
  refine ⟨?_, hlen, ?_, fun k => filter_sortDesc k _⟩
  · rw [hlen]
    exact List.length_take_le _ _
  · exact (sortDesc_sorted _).sublist (List.take_sublist _ _)

/-- C4: the link of every output item is the archive prefix concatenated
with the guid of that item (the original link), and is never the raw
original link. -/
theorem C4_link_is_prefixed_archive (now : Int)
    (feeds : List (Except String (List FPEntry)))
    (net : Nat → String → Except String Doc) (order : List Nat) (r : RssItem)
    (h : r ∈ outputItems now feeds net order) :
    r.link = archivePrefixVal ++ r.guid ∧ r.link ≠ r.guid := by
  rcases List.mem_map.mp h with ⟨it, hit, rfl⟩
  rcases mem_attachAll hit with ⟨it0, hit0, hcase⟩
  have hall : it0 ∈ all_entries now feeds :=
    mem_sortDesc.mp (List.take_subset _ _ hit0)
  rcases mem_all_entries hall with ⟨e, l, _, _, rfl⟩
  rcases hcase with rfl | ⟨i, rfl⟩
  · exact ⟨rfl, prefixed_ne l⟩
  · exact ⟨rfl, prefixed_ne l⟩

/-- Witness for C4 at a concrete run. -/
theorem C4_witness :
    ∃ r, r ∈ outputItems 0 feedsC1 netFail [0, 1] ∧
      r.link = archivePrefixVal ++ r.guid ∧ r.link ≠ r.guid := by
  have hg : (outputItems 0 feedsC1 netFail [0, 1])[0]? =
      some (toRssItem (withFull itemA (resOf netFail (selectedItems 0 feedsC1) 0))) :=
    rfl
  have hm := List.getElem?_mem hg
  exact ⟨_, hm, C4_link_is_prefixed_archive 0 feedsC1 netFail [0, 1] _ hm⟩

/-- C5: the fetch loop makes at most RETRY_COUNT attempts, sleeping once
after each failed attempt; it never raises, returning the extraction of the
first successful attempt or, after exhausting the attempts, a placeholder
that starts with the failure marker; and whatever the fetch result, every
output item keeps the title, link, guid, description and pubDate derived
from its originating entry. -/
theorem C5_bounded_retries_and_placeholder
    (net : Nat → String → Except String Doc) (url : String) :
    (fetch_archive_full_html net url).sleeps ≤ RETRY_COUNT ∧
    ((∃ j d, firstOk net url 0 RETRY_COUNT = some (j, d) ∧
        (fetch_archive_full_html net url).result = attemptExtract (net j) url d) ∨
      (firstOk net url 0 RETRY_COUNT = none ∧
        ∃ rest, (fetch_archive_full_html net url).result =
          "<!-- Failed to fetch archive content (" ++ rest)) ∧
    (∀ (now : Int) (feeds : List (Except String (List FPEntry)))
        (order : List Nat) (i : Nat) (it : Item),
      (selectedItems now feeds)[i]? = some it →
      ∃ r, (outputItems now feeds net order)[i]? = some r ∧
        r.title = it.title ∧ r.link = it.archive_link ∧
        r.guid = it.orig_link ∧ r.description = it.summary ∧
        r.pubDate = format_rfc2822 it.published_dt) := by
  refine ⟨fetchGo_sleeps_le net url RETRY_COUNT 0 none, ?_, ?_⟩
  · cases hf : firstOk net url 0 RETRY_COUNT with
    | some jd =>
      obtain ⟨jj, d⟩ := jd
      exact Or.inl ⟨jj, d, rfl,
        fetchGo_result_ok net url RETRY_COUNT 0 none jj d hf⟩
    | none =>
      rcases fetchGo_result_none net url RETRY_COUNT 0 none hf with ⟨e0, he⟩
      rcases failurePlaceholder_marked url e0 with ⟨rest, hrest⟩
      refine Or.inr ⟨rfl, rest, ?_⟩
      rw [fetch_archive_full_html, he]
      exact hrest
  · intro now feeds order i it hi
    unfold outputItems
    rw [List.getElem?_map, getElem?_attachAll]
    by_cases hio : i ∈ order
    · rw [if_pos hio, hi]
      exact ⟨_, rfl, rfl, rfl, rfl, rfl, rfl⟩
    · rw [if_neg hio, hi]
      exact ⟨_, rfl, rfl, rfl, rfl, rfl, rfl⟩

/-- Witness for C5 at a concrete run on which every request fails. -/
theorem C5_witness :
    (fetch_archive_full_html netFail "u").sleeps ≤ RETRY_COUNT ∧
    ∃ r, (outputItems 0 feedsC1 netFail [0, 1])[0]? = some r ∧
      r.title = itemA.title ∧ r.link = itemA.archive_link ∧
      r.guid = itemA.orig_link ∧ r.description = itemA.summary ∧
      r.pubDate = format_rfc2822 itemA.published_dt := by
  obtain ⟨hs, -, hdr⟩ := C5_bounded_retries_and_placeholder netFail "u"
  exact ⟨hs, hdr 0 feedsC1 [0, 1] 0 itemA rfl⟩

/-- C6 counterexample: when full_content holds the CDATA terminator, the
serializer raises instead of emitting a document at all, refuting the claim
that the emitted document is well-formed for every full_content value. -/
theorem C6_counterexample_terminator_rejected :
    serializeRss [rssItemBad] =
      Except.error "]]> not allowed in a CDATA section" := by
  rfl

/-- C6 amended: full_content is embedded as a CDATA section, never by raw
concatenation; for every full_content free of the terminator the element
serializes and an XML parser scanning to the first terminator recovers
exactly the embedded data, and serialization fails (no document is emitted)
when full_content holds the terminator. -/
theorem C6_amended_cdata_wellformed (data : String)
    (h : occursIn cdataEnd data.data = false) :
    ∃ s, serializeContentEl data = Except.ok s ∧
      readBackContentEl s = some data := by
  have hser : serializeContentEl data =
      Except.ok ("<content:encoded>" ++ ("<![CDATA[" ++ data ++ "]]>") ++
        "</content:encoded>") := by
    simp [serializeContentEl, serializeCData, h]
  refine ⟨_, hser, ?_⟩
  unfold readBackContentEl
  have hdata :
      ("<content:encoded>" ++ ("<![CDATA[" ++ data ++ "]]>") ++
        "</content:encoded>").data =
      ("<content:encoded><![CDATA[").data ++
        (data.data ++ (cdataEnd ++ ("</content:encoded>").data)) := by
    simp [String.data_append, cdataEnd, List.append_assoc]
  rw [hdata, dropPrefixChars_append]
  simp [cdata_split ("</content:encoded>").data data.data h, strMk_data]

/-- Witness for the amended C6 at concrete markup-bearing content. -/
theorem C6_amended_witness :
    occursIn cdataEnd ("<p>hello</p>").data = false ∧
    ∃ s, serializeContentEl "<p>hello</p>" = Except.ok s ∧
      readBackContentEl s = some "<p>hello</p>" := by
  exact ⟨by decide, C6_amended_cdata_wellformed "<p>hello</p>" (by decide)⟩

/-- C7 counterexample: on a page with no article, a childless iframe and a
body, the script fetches the iframe target and returns its article, while
the four step policy of the claim would return the body; the extraction
order of the claim omits the iframe fetch-through step. -/
theorem C7_counterexample_iframe_step :
    (fetch_archive_full_html net7 "u7").result ≠ extractPolicyClaim doc7 ∧
    net7 0 "u7" = Except.ok doc7 := by
  exact ⟨by decide, rfl⟩

/-- C7 amended: the extraction tries, in order, the first article with
text, the iframe fetch-through (fired by any found iframe carrying a src
attribute, returning the first found of article, div id content, body on
the target page), the first div whose id contains the snapshot token with
text, the document body whenever one is found, and finally the raw
response text, returning the first strategy that matches. -/
theorem C7_amended_strategy_order (get : String → Except String Doc)
    (url : String) (d : Doc) :
    attemptExtract get url d = extractPolicyAmended get url d := by
  have hi := iframeStage_eq get url d
  unfold attemptExtract extractPolicyAmended
  cases h : docFind (isTagNamed "article") d with
  | none =>
    rw [tryStrategies, show stratArticle d = none from by simp [stratArticle, h]]
    exact hi
  | some a =>
    by_cases hc : (tagTruthy a && hasText a) = true
    · rw [tryStrategies,
        show stratArticle d = some (render a) from by simp [stratArticle, h, hc]]
      simp [hc]
    · rw [tryStrategies,
        show stratArticle d = none from by simp [stratArticle, h, hc]]
      simpa [hc] using hi

/-- C8: the published timestamp is the explicit published time when
present, otherwise the explicit updated time when present, otherwise the
current wall clock, and in every case the result is an aware datetime in
the UTC representation. -/
theorem C8_timestamp_resolution (e : FPEntry) (now : Int) :
    (parse_entry_datetime e now).tz = some 0 ∧
    (∀ t, e.published_parsed = some t →
      parse_entry_datetime e now = fromtimestampUtc (mktimeModel t)) ∧
    (e.published_parsed = none → ∀ t, e.updated_parsed = some t →
      parse_entry_datetime e now = fromtimestampUtc (mktimeModel t)) ∧
    (e.published_parsed = none → e.updated_parsed = none →
      parse_entry_datetime e now = nowUtc now) := by
  refine ⟨?_, ?_, ?_, ?_⟩
  · unfold parse_entry_datetime
    cases e.published_parsed with
    | some t => rfl
    | none =>
      cases e.updated_parsed with
      | some t => rfl
      | none => rfl
  · intro t ht
    simp [parse_entry_datetime, ht]
  · intro hp t ht
    simp [parse_entry_datetime, hp, ht]
  · intro hp hu
    simp [parse_entry_datetime, hp, hu]

/-- Witness for C8 on an entry carrying only an updated time. -/
theorem C8_witness :
    parse_entry_datetime entryUpd 7 = fromtimestampUtc (mktimeModel 11) ∧
    (parse_entry_datetime entryUpd 7).tz = some 0 := by
  exact ⟨(C8_timestamp_resolution entryUpd 7).2.2.1 rfl 11 rfl,
    (C8_timestamp_resolution entryUpd 7).1⟩

/-- C9: an entry with no link attribute never contributes to the aggregated
list or the output (removing all such entries changes nothing), and every
aggregated item carries a nonempty link. -/
theorem C9_linkless_entries_skipped (now : Int)
    (feeds : List (Except String (List FPEntry))) :
    all_entries now (stripNoLink feeds) = all_entries now feeds ∧
    (∀ (net : Nat → String → Except String Doc) (order : List Nat),
      outputItems now (stripNoLink feeds) net order =
        outputItems now feeds net order) ∧
    ∀ it, it ∈ all_entries now feeds → it.orig_link ≠ "" := by
  have hmain := all_entries_strip now feeds
  refine ⟨hmain, ?_, ?_⟩
  · intro net order
    unfold outputItems selectedItems
    rw [hmain]
  · intro it h
    rcases mem_all_entries h with ⟨e, l, _, hl, rfl⟩
    simpa [mkItem] using hl

/-- Witness for C9 at a concrete run holding a linkless entry. -/
theorem C9_witness :
    all_entries 0 (stripNoLink feedsC1) = all_entries 0 feedsC1 ∧
    itemA.orig_link ≠ "" := by
  refine ⟨(C9_linkless_entries_skipped 0 feedsC1).1,
    (C9_linkless_entries_skipped 0 feedsC1).2.2 itemA ?_⟩
  rw [show all_entries 0 feedsC1 = [itemA, mkItem 0 entryB "L"] from rfl]
  exact List.mem_cons_self _ _

/-- C10: when every selected index completes, the output item sequence is
the same for any two completion orders of the fetch futures: the result of
each future is keyed to its originating item and the writer walks the
selected list in its own order. -/
theorem C10_output_independent_of_order (now : Int)
    (feeds : List (Except String (List FPEntry)))
    (net : Nat → String → Except String Doc) (o1 o2 : List Nat)
    (h1 : ∀ i, i < (selectedItems now feeds).length → i ∈ o1)
    (h2 : ∀ i, i < (selectedItems now feeds).length → i ∈ o2) :
    outputItems now feeds net o1 = outputItems now feeds net o2 := by
  unfold outputItems
  congr 1
  apply List.ext_getElem?
  intro i
  rw [getElem?_attachAll, getElem?_attachAll]
  by_cases hlen : i < (selectedItems now feeds).length
  · rw [if_pos (h1 i hlen), if_pos (h2 i hlen)]
  · have hnone : (selectedItems now feeds)[i]? = none :=
      List.getElem?_eq_none (Nat.le_of_not_lt hlen)
    rw [hnone]
    by_cases hm1 : i ∈ o1 <;> by_cases hm2 : i ∈ o2 <;>
      simp [hm1, hm2]

/-- Witness for C10 on a concrete run with two completion orders. -/
theorem C10_witness :
    outputItems 0 feedsC1 netFail [0, 1] = outputItems 0 feedsC1 netFail [1, 0] := by
  exact C10_output_independent_of_order 0 feedsC1 netFail [0, 1] [1, 0]
    (by decide) (by decide)

end CombineRss
